import Mathlib

/-!
Verification of the malformed-JSON recovery pipeline in
`scripts/process-artifact-json.py`.

The development shallowly embeds the repair stages (`fix_invalid_escapes`,
`escape_control_chars_in_strings`, `fix_multiline_strings`), their composition
`clean_json_text`, the tolerant parser `robust_json_loads`, and the flattening
loop (empty-file skip, per-file error containment, row building over the
declared `fieldnames` schema, `serialize_field`).

Texts are embedded as `List Char`.  The Python regular-expression operations
used by the source are embedded by their operational semantics:

* `re.sub(r'\\(?!["\\/bfnrtu])', r'\\\\', text)` scans left to right; a
  backslash whose successor is outside the recognized set (or which ends the
  text) is the whole match and is replaced by two backslashes; otherwise the
  scan advances one character.
* `re.sub(r'"(?:\\.|[^"\\])*"', f, text, flags=re.DOTALL)` finds, from each
  opening quote, the first closing quote reachable by consuming
  backslash-plus-any-character pairs and non-quote characters; the match is
  deterministic because neither alternative can consume an unescaped quote.
* The search `("run":\s*")([^"]*)$` and the substitution with template
  `r'\1' + fixed_string` in `fix_multiline_strings`, including CPython's
  processing of the replacement template (`\1`/`\g<..>` group references,
  octal and character escapes, errors on unknown ASCII-letter escapes and
  invalid group references).  The template processing is what makes the
  function partial: it can raise `re.error`, which we model with `Option`.

`json.loads` and `json.dumps` are Python standard-library collaborators, not
code of this repository; the parser is kept as an explicit function parameter
of the embedded `robust_json_loads`, and the serializer is modelled by
`json_dumps` below.
-/

/-! ## Python helpers: whitespace, splitlines, rstrip -/

/-- Characters treated as whitespace by Python's `str.rstrip`, `str.isspace`
and by `\s` in a `str` regex pattern (the sets coincide).  The model covers
the full CPython whitespace set. -/
def pyIsSpace (c : Char) : Bool :=
  c ∈ [' ', '\t', '\n', '\r', '\x0b', '\x0c', '\x1c', '\x1d', '\x1e', '\x1f',
       '\x85', '\xa0', '\u1680', '\u2000', '\u2001', '\u2002', '\u2003',
       '\u2004', '\u2005', '\u2006', '\u2007', '\u2008', '\u2009', '\u200a',
       '\u2028', '\u2029', '\u202f', '\u205f', '\u3000']

/-- Characters at which Python's `str.splitlines` breaks a line. -/
def pyIsLineBreak (c : Char) : Bool :=
  c ∈ ['\n', '\r', '\x0b', '\x0c', '\x1c', '\x1d', '\x1e', '\x85',
       '\u2028', '\u2029']

/-- Worker for `pySplitlines`: `acc` is the current line, reversed.
A terminal line break does not produce a trailing empty line, and the pair
carriage-return line-feed counts as a single break, as in Python. -/
def pySplitlinesGo : List Char → List Char → List (List Char)
  | [], acc => [acc.reverse]
  | '\r' :: '\n' :: [], acc => [acc.reverse]
  | '\r' :: '\n' :: rest, acc => acc.reverse :: pySplitlinesGo rest []
  | c :: rest, acc =>
    if pyIsLineBreak c then
      match rest with
      | [] => [acc.reverse]
      | _ :: _ => acc.reverse :: pySplitlinesGo rest []
    else pySplitlinesGo rest (c :: acc)

/-- Python's `str.splitlines` (`''.splitlines() = []`). -/
def pySplitlines (s : List Char) : List (List Char) :=
  match s with
  | [] => []
  | _ :: _ => pySplitlinesGo s []

/-- Python's `str.rstrip()` with no argument: drop trailing whitespace. -/
def pyRstrip (s : List Char) : List Char :=
  (s.reverse.dropWhile pyIsSpace).reverse

/-! ## Escape Normalizer: `fix_invalid_escapes` (source lines 19-24) -/

/-- The escape indicators recognized by the pattern `\\(?!["\\/bfnrtu])`. -/
def validEscapeChar (c : Char) : Bool :=
  c ∈ ['"', '\\', '/', 'b', 'f', 'n', 'r', 't', 'u']

/-- Embedding of `re.sub(r'\\(?!["\\/bfnrtu])', r'\\\\', text)`: a backslash
whose next character is not a recognized indicator (or which is the last
character) is doubled, and the scan resumes after the matched backslash; a
backslash whose next character is a recognized indicator is not a match, and
the scan resumes at that next character. -/
def fix_invalid_escapes : List Char → List Char
  | [] => []
  | c :: rest =>
    if c = '\\' then
      match rest with
      | [] => ['\\', '\\']
      | d :: _ =>
        if validEscapeChar d then c :: fix_invalid_escapes rest
        else c :: '\\' :: fix_invalid_escapes rest
    else c :: fix_invalid_escapes rest

/-- Spec-side, positional reading of the Escape Normalizer contract: the
expansion of position `i` of `s` — a backslash not immediately followed by a
recognized indicator becomes two backslashes, every other character is kept. -/
def char_expansion (s : List Char) (i : Nat) : List Char :=
  match s[i]? with
  | none => []
  | some c =>
    if c = '\\' then
      match s[(i + 1)]? with
      | some d => if validEscapeChar d then [c] else ['\\', '\\']
      | none => ['\\', '\\']
    else [c]

/-- Concatenation of the images of a function over a list (used for the
positional spec definitions). -/
def concatMap {α : Type} (f : α → List Char) : List α → List Char
  | [] => []
  | a :: rest => f a ++ concatMap f rest

/-- Spec-side Escape Normalizer, assembled per character position: "return
text where every backslash not immediately followed by one of the recognized
JSON escape indicators is doubled" (spec §4.3), all other characters
unchanged. -/
def escape_normalizer_spec (s : List Char) : List Char :=
  concatMap (char_expansion s) (List.range s.length)

/-- Texts with no two adjacent backslashes ("no already-doubled backslash
sequences", the hypothesis of the spec's fixed-point property). -/
def no_double_backslash : List Char → Bool
  | [] => true
  | '\\' :: '\\' :: _ => false
  | _ :: rest => no_double_backslash rest

/-- Texts in which every backslash is immediately followed by a recognized
escape indicator (so the Escape Normalizer has nothing to rewrite). -/
def all_escapes_valid : List Char → Bool
  | [] => true
  | c :: rest =>
    if c = '\\' then
      match rest with
      | [] => false
      | d :: _ => validEscapeChar d && all_escapes_valid rest
    else all_escapes_valid rest

/-! Theorems for the Escape Normalizer claims. -/

theorem concatMap_map {α β : Type} (f : β → List Char) (g : α → β) :
    ∀ l : List α, concatMap f (l.map g) = concatMap (fun a => f (g a)) l
  | [] => rfl
  | a :: rest => by simp [concatMap, concatMap_map f g rest]

theorem char_expansion_succ (c : Char) (s : List Char) (i : Nat) :
    char_expansion (c :: s) (i + 1) = char_expansion s i := by
  simp [char_expansion]

theorem escape_normalizer_spec_cons (c : Char) (s : List Char) :
    escape_normalizer_spec (c :: s) =
      char_expansion (c :: s) 0 ++ escape_normalizer_spec s := by
  have h : List.range (s.length + 1) = 0 :: (List.range s.length).map Nat.succ :=
    List.range_succ_eq_map s.length
  have h2 : (fun a => char_expansion (c :: s) (Nat.succ a)) = char_expansion s :=
    funext fun i => char_expansion_succ c s i
  simp only [escape_normalizer_spec, List.length_cons, h, concatMap,
    concatMap_map, h2]

/-- C4: the Escape Normalizer returns the text in which every backslash not
immediately followed by one of `"`, `\`, `/`, `b`, `f`, `n`, `r`, `t`, `u`
is doubled, and every other character is unchanged: the embedded
`fix_invalid_escapes` agrees with the positional spec reading. -/
theorem escape_normalizer_matches_spec :
    ∀ s : List Char, fix_invalid_escapes s = escape_normalizer_spec s := by
  intro s
  induction s using fix_invalid_escapes.induct with
  | case1 => rfl
  | case2 => decide
  | case3 c rest hval ih =>
    rw [escape_normalizer_spec_cons]
    have hfix : fix_invalid_escapes ('\\' :: c :: rest) =
        '\\' :: fix_invalid_escapes (c :: rest) := by
      simp [fix_invalid_escapes, hval]
    rw [hfix, ih]
    simp [char_expansion, hval]
  | case4 c rest hval ih =>
    rw [escape_normalizer_spec_cons]
    have hfix : fix_invalid_escapes ('\\' :: c :: rest) =
        '\\' :: '\\' :: fix_invalid_escapes (c :: rest) := by
      simp [fix_invalid_escapes, hval]
    rw [hfix, ih]
    simp [char_expansion, hval]
  | case5 c rest hc ih =>
    rw [escape_normalizer_spec_cons]
    have hfix : fix_invalid_escapes (c :: rest) = c :: fix_invalid_escapes rest := by
      simp [fix_invalid_escapes, hc]
    rw [hfix, ih]
    simp [char_expansion, hc]

/-- C5 counterexample: the input backslash-`a` contains only single-backslash
corruption, yet applying the Escape Normalizer twice does not equal applying
it once (one pass gives two backslashes before `a`, a second pass gives
three). -/
theorem escape_normalizer_not_idempotent :
    no_double_backslash ("\\a".toList) = true ∧
      fix_invalid_escapes (fix_invalid_escapes ("\\a".toList)) ≠
        fix_invalid_escapes ("\\a".toList) := by
  exact ⟨rfl, by decide⟩

/-- C5 amended: the Escape Normalizer is a fixed point only on texts already
free of invalid escapes — if every backslash is immediately followed by a
recognized indicator, one pass is the identity, hence twice equals once. -/
theorem escape_normalizer_fixed_point_on_valid (s : List Char)
    (h : all_escapes_valid s = true) :
    fix_invalid_escapes s = s ∧
      fix_invalid_escapes (fix_invalid_escapes s) = fix_invalid_escapes s := by
  have hid : ∀ t : List Char, all_escapes_valid t = true →
      fix_invalid_escapes t = t := by
    intro t ht
    induction t using fix_invalid_escapes.induct with
    | case1 => rfl
    | case2 => simp [all_escapes_valid] at ht
    | case3 c rest hval ih =>
      have ht2 : (validEscapeChar c && all_escapes_valid (c :: rest)) = true := ht
      rw [Bool.and_eq_true] at ht2
      have hfix : fix_invalid_escapes ('\\' :: c :: rest) =
          '\\' :: fix_invalid_escapes (c :: rest) := by
        simp [fix_invalid_escapes, hval]
      rw [hfix, ih ht2.2]
    | case4 c rest hval ih =>
      have ht2 : (validEscapeChar c && all_escapes_valid (c :: rest)) = true := ht
      rw [Bool.and_eq_true] at ht2
      exact absurd ht2.1 hval
    | case5 c rest hc ih =>
      simp only [all_escapes_valid, if_neg hc] at ht
      simp [fix_invalid_escapes, hc, ih ht]
  refine ⟨hid s h, ?_⟩
  rw [hid s h]
  exact hid s h

/-- Witness for the amended C5 theorem at the concrete text `a\nb` (a valid
two-character escape between `a` and `b`). -/
theorem escape_normalizer_fixed_point_on_valid_witness :
    fix_invalid_escapes ("a\\nb".toList) = "a\\nb".toList ∧
      fix_invalid_escapes (fix_invalid_escapes ("a\\nb".toList)) =
        fix_invalid_escapes ("a\\nb".toList) :=
  escape_normalizer_fixed_point_on_valid ("a\\nb".toList) (by decide)

/-! ## Control-Character Escaper: `escape_control_chars_in_strings`
(source lines 26-36) -/

/-- Python's `str.replace` for a single-character needle. -/
def replaceAll (s : List Char) (a : Char) (r : List Char) : List Char :=
  concatMap (fun x => if x = a then r else [x]) s

/-- The inner `replace_control` of the source: three successive `str.replace`
calls turning literal newline, carriage return and tab into their
two-character escapes. -/
def replace_control (inner : List Char) : List Char :=
  replaceAll (replaceAll (replaceAll inner '\n' ['\\', 'n']) '\r' ['\\', 'r'])
    '\t' ['\\', 't']


/-- Content scan of the pattern `"(?:\\.|[^"\\])*"` after an opening quote:
consume backslash-plus-any-character pairs (DOTALL) and non-quote characters
until the closing quote; return the consumed content and the remainder after
the closing quote, or `none` when no closing quote is reachable. -/
def scanStr : List Char → Option (List Char × List Char)
  | [] => none
  | c :: rest =>
    if c = '"' then some ([], rest)
    else if c = '\\' then
      match rest with
      | [] => none
      | d :: rest2 => (scanStr rest2).map (fun p => (c :: d :: p.1, p.2))
    else (scanStr rest).map (fun p => (c :: p.1, p.2))

theorem scanStr_quote (rest : List Char) : scanStr ('"' :: rest) = some ([], rest) := by
  cases rest <;> simp [scanStr]

theorem scanStr_pair (d : Char) (rest2 : List Char) :
    scanStr ('\\' :: d :: rest2) =
      (scanStr rest2).map (fun p => ('\\' :: d :: p.1, p.2)) := by
  simp [scanStr]

theorem scanStr_other (c : Char) (rest : List Char) (h1 : ¬c = '"') (h2 : ¬c = '\\') :
    scanStr (c :: rest) = (scanStr rest).map (fun p => (c :: p.1, p.2)) := by
  cases rest <;> simp [scanStr, h1, h2]

/-- The remainder returned by a successful content scan is strictly shorter
than the scanned text. -/
theorem scanStr_length : ∀ (s content r : List Char),
    scanStr s = some (content, r) → r.length < s.length := by
  intro s
  induction s using scanStr.induct with
  | case1 =>
    intro content r h
    simp [scanStr] at h
  | case2 rest2 =>
    intro content r h
    rw [scanStr_quote, Option.some.injEq, Prod.mk.injEq] at h
    rw [← h.2]
    simp
  | case3 hb =>
    intro content r h
    simp [scanStr] at h
  | case4 d rest2 hb ih =>
    intro content r h
    rw [scanStr_pair, Option.map_eq_some'] at h
    rcases h with ⟨⟨content2, r2⟩, hsc, heq⟩
    have hlt := ih content2 r2 hsc
    have hr : r2 = r := by simpa using congrArg Prod.snd heq
    subst hr
    simp only [List.length_cons]
    omega
  | case5 d rest2 h1 h2 ih =>
    intro content r h
    rw [scanStr_other d rest2 h1 h2, Option.map_eq_some'] at h
    rcases h with ⟨⟨content2, r2⟩, hsc, heq⟩
    have hlt := ih content2 r2 hsc
    have hr : r2 = r := by simpa using congrArg Prod.snd heq
    subst hr
    simp only [List.length_cons]
    omega

/-- Fueled worker for the Control-Character Escaper.  Every recursive call
consumes at least one character of the text, so fuel equal to the text length
(as supplied by the wrapper below) is never exhausted; the fuel-zero arm is
unreachable and the fuel only serves to make the recursion structural. -/
def eccFuel : Nat → List Char → List Char
  | _, [] => []
  | 0, s => s
  | n + 1, c :: rest =>
    if c = '"' then
      match scanStr rest with
      | some (content, r) =>
        c :: (replace_control content ++ '"' :: eccFuel n r)
      | none => c :: eccFuel n rest
    else c :: eccFuel n rest

/-- Embedding of
`re.sub(r'"(?:\\.|[^"\\])*"', replace_control, text, flags=re.DOTALL)`:
from each opening quote the engine matches up to the first reachable
unescaped closing quote and rewrites the span through `replace_control`;
when no closing quote is reachable it retries from the next position
(characters pass through, and later opening quotes are attempted in turn). -/
def escape_control_chars_in_strings (s : List Char) : List Char :=
  eccFuel s.length s

theorem eccFuel_nil (n : Nat) : eccFuel n [] = [] := by
  cases n <;> simp [eccFuel]

theorem eccFuel_cons (n : Nat) (c : Char) (rest : List Char) :
    eccFuel (n + 1) (c :: rest) =
      if c = '"' then
        match scanStr rest with
        | some (content, r) =>
          c :: (replace_control content ++ '"' :: eccFuel n r)
        | none => c :: eccFuel n rest
      else c :: eccFuel n rest := by
  simp [eccFuel]

/-! Spec-side Control-Character Escaper, following §4.4 of the spec: locate
every maximal quoted-string span — text between an opening quote and the next
unescaped closing quote, where an escaped quote does not terminate the span —
and within each span replace literal newline, carriage return and tab by their
two-character escapes; text outside string spans (including the remainder
after an opening quote that never closes) is untouched. -/

/-- Spec-side span scan: walk the text one character at a time carrying an
"escaped" flag; a quote closes the span only when the flag is off. -/
def spec_find_close : List Char → Bool → Option (List Char × List Char)
  | [], _ => none
  | c :: rest, b =>
    if b then (spec_find_close rest false).map (fun p => (c :: p.1, p.2))
    else if c = '"' then some ([], rest)
    else if c = '\\' then (spec_find_close rest true).map (fun p => (c :: p.1, p.2))
    else (spec_find_close rest false).map (fun p => (c :: p.1, p.2))

theorem spec_find_close_cons (c : Char) (rest : List Char) (b : Bool) :
    spec_find_close (c :: rest) b =
      if b then (spec_find_close rest false).map (fun p => (c :: p.1, p.2))
      else if c = '"' then some ([], rest)
      else if c = '\\' then
        (spec_find_close rest true).map (fun p => (c :: p.1, p.2))
      else (spec_find_close rest false).map (fun p => (c :: p.1, p.2)) := by
  simp [spec_find_close]

/-- Two-character escape for the three control characters named by the spec;
all other characters are kept. -/
def ctl_escape_char (c : Char) : List Char :=
  if c = '\n' then ['\\', 'n']
  else if c = '\r' then ['\\', 'r']
  else if c = '\t' then ['\\', 't']
  else [c]

/-- The remainder returned by a successful spec-side span scan is strictly
shorter than the scanned text. -/
theorem spec_find_close_length : ∀ (s : List Char) (b : Bool) (content r : List Char),
    spec_find_close s b = some (content, r) → r.length < s.length := by
  intro s
  induction s with
  | nil =>
    intro b content r h
    simp [spec_find_close] at h
  | cons c rest ih =>
    intro b content r h
    have step : ∀ (b2 : Bool) (content2 r2 : List Char),
        spec_find_close rest b2 = some (content2, r2) →
        r2.length < (c :: rest).length := by
      intro b2 content2 r2 h2
      have := ih b2 content2 r2 h2
      simp only [List.length_cons]
      omega
    rw [spec_find_close_cons] at h
    cases b with
    | true =>
      rw [if_pos rfl, Option.map_eq_some'] at h
      rcases h with ⟨⟨content2, r2⟩, hsc, heq⟩
      have hr : r2 = r := by simpa using congrArg Prod.snd heq
      subst hr
      exact step false content2 r2 hsc
    | false =>
      rw [if_neg (by simp)] at h
      by_cases hq : c = '"'
      · rw [if_pos hq, Option.some.injEq, Prod.mk.injEq] at h
        rw [← h.2]
        simp
      · rw [if_neg hq] at h
        by_cases hb : c = '\\'
        · rw [if_pos hb, Option.map_eq_some'] at h
          rcases h with ⟨⟨content2, r2⟩, hsc, heq⟩
          have hr : r2 = r := by simpa using congrArg Prod.snd heq
          subst hr
          exact step true content2 r2 hsc
        · rw [if_neg hb, Option.map_eq_some'] at h
          rcases h with ⟨⟨content2, r2⟩, hsc, heq⟩
          have hr : r2 = r := by simpa using congrArg Prod.snd heq
          subst hr
          exact step false content2 r2 hsc

/-- Spec-side Control-Character Escaper assembled from the span scan. -/
def spec_control_escaper (s : List Char) : List Char :=
  match s with
  | [] => []
  | '"' :: rest =>
    match h : spec_find_close rest false with
    | some (content, r) =>
      '"' :: (concatMap ctl_escape_char content ++ '"' :: spec_control_escaper r)
    | none => '"' :: rest
  | c :: rest => c :: spec_control_escaper rest
termination_by s.length
decreasing_by
  · exact Nat.lt_trans (spec_find_close_length rest false content r h)
      (Nat.lt_succ_self _)
  · exact Nat.lt_succ_self _


theorem spec_escaper_nil : spec_control_escaper [] = [] := by
  rw [spec_control_escaper.eq_def]

theorem spec_escaper_quote_some (rest content r : List Char)
    (h : spec_find_close rest false = some (content, r)) :
    spec_control_escaper ('"' :: rest) =
      '"' :: (concatMap ctl_escape_char content ++ '"' :: spec_control_escaper r) := by
  rw [spec_control_escaper.eq_def]
  split
  · rename_i heq
    exact absurd heq (by simp)
  · rename_i rest1 heq
    injection heq with hx hy
    subst hy
    split
    · rename_i content1 r1 hh
      rw [h] at hh
      injection hh with hp
      injection hp with hc hr
      subst hc
      subst hr
      rfl
    · rename_i hh
      rw [h] at hh
      cases hh
  · rename_i hne heq
    injection heq with h1 h2
    exact absurd h1.symm hne

theorem spec_escaper_quote_none (rest : List Char)
    (h : spec_find_close rest false = none) :
    spec_control_escaper ('"' :: rest) = '"' :: rest := by
  rw [spec_control_escaper.eq_def]
  split
  · rename_i heq
    exact absurd heq (by simp)
  · rename_i rest1 heq
    injection heq with hx hy
    subst hy
    split
    · rename_i content1 r1 hh
      rw [h] at hh
      cases hh
    · rfl
  · rename_i hne heq
    injection heq with h1 h2
    exact absurd h1.symm hne

theorem spec_escaper_other (c : Char) (rest : List Char) (hq : ¬c = '"') :
    spec_control_escaper (c :: rest) = c :: spec_control_escaper rest := by
  rw [spec_control_escaper.eq_def]
  split
  · rename_i heq
    exact absurd heq (by simp)
  · rename_i rest1 heq
    injection heq with h1 h2
    exact absurd h1 hq
  · rename_i hne heq
    injection heq with h1 h2
    subst h1
    subst h2
    rfl

theorem eccFuel_quote_some (n : Nat) (rest content r : List Char)
    (h : scanStr rest = some (content, r)) :
    eccFuel (n + 1) ('"' :: rest) =
      '"' :: (replace_control content ++ '"' :: eccFuel n r) := by
  rw [eccFuel_cons, if_pos rfl, h]

theorem eccFuel_quote_none (n : Nat) (rest : List Char)
    (h : scanStr rest = none) :
    eccFuel (n + 1) ('"' :: rest) = '"' :: eccFuel n rest := by
  rw [eccFuel_cons, if_pos rfl, h]

theorem concatMap_append {α : Type} (f : α → List Char) :
    ∀ x y : List α, concatMap f (x ++ y) = concatMap f x ++ concatMap f y := by
  intro x y
  induction x with
  | nil => rfl
  | cons a rest ih => simp [concatMap, ih]

theorem replace_control_append (x y : List Char) :
    replace_control (x ++ y) = replace_control x ++ replace_control y := by
  simp [replace_control, replaceAll, concatMap_append]

theorem replace_control_eq :
    ∀ s : List Char, replace_control s = concatMap ctl_escape_char s := by
  intro s
  induction s with
  | nil => rfl
  | cons c rest ih =>
    have hsplit : c :: rest = [c] ++ rest := rfl
    rw [hsplit, replace_control_append, concatMap_append, ih]
    congr 1
    by_cases h1 : c = '\n'
    · subst h1; rfl
    by_cases h2 : c = '\r'
    · subst h2; rfl
    by_cases h3 : c = '\t'
    · subst h3; rfl
    simp [replace_control, replaceAll, concatMap, ctl_escape_char, h1, h2, h3]

/-- The spec-side span scan agrees with the source-side regex content scan:
tracking an escaped flag locates the same closing quote as consuming
backslash-character pairs. -/
theorem spec_find_close_eq :
    ∀ s : List Char, spec_find_close s false = scanStr s := by
  have main : ∀ (n : Nat) (s : List Char), s.length ≤ n →
      spec_find_close s false = scanStr s := by
    intro n
    induction n with
    | zero =>
      intro s hs
      cases s with
      | nil => rfl
      | cons c rest => simp at hs
    | succ n ihn =>
      intro s hs
      cases s with
      | nil => rfl
      | cons c rest =>
        by_cases hq : c = '"'
        · subst hq
          rw [scanStr_quote, spec_find_close_cons]
          simp
        by_cases hb : c = '\\'
        · subst hb
          cases rest with
          | nil =>
            rw [spec_find_close_cons]
            simp [spec_find_close, scanStr]
          | cons d rest2 =>
            have ih2 : spec_find_close rest2 false = scanStr rest2 := by
              apply ihn
              simp only [List.length_cons] at hs
              omega
            rw [scanStr_pair, spec_find_close_cons]
            rw [if_neg (by simp), if_neg (by decide), if_pos rfl]
            rw [spec_find_close_cons, if_pos rfl, ih2]
            rcases scanStr rest2 with _ | ⟨content, r⟩ <;> rfl
        · have ih2 : spec_find_close rest false = scanStr rest := by
            apply ihn
            simp only [List.length_cons] at hs
            omega
          rw [scanStr_other c rest hq hb, spec_find_close_cons]
          rw [if_neg (by simp), if_neg hq, if_neg hb, ih2]
  intro s
  exact main s.length s (Nat.le_refl _)

/-- When the content scan finds no closing quote from some position, the
escaper leaves the whole remainder unchanged: every later quote is the second
character of a consumed pair, and scanning from it fails as well. -/
theorem eccFuel_of_no_close : ∀ (n : Nat) (s : List Char), s.length ≤ n →
    scanStr s = none → eccFuel n s = s := by
  intro n
  induction n using Nat.strong_induction_on with
  | _ n ihn =>
    intro s hs hnone
    cases s with
    | nil => exact eccFuel_nil n
    | cons c rest =>
      rcases n with _ | n'
      · simp at hs
      by_cases hq : c = '"'
      · subst hq
        rw [scanStr_quote] at hnone
        cases hnone
      rw [eccFuel_cons, if_neg hq]
      by_cases hb : c = '\\'
      · subst hb
        cases rest with
        | nil => rw [eccFuel_nil]
        | cons d rest3 =>
          rw [scanStr_pair] at hnone
          have h3 : scanStr rest3 = none := by
            rcases hsc : scanStr rest3 with _ | p
            · rfl
            · rw [hsc] at hnone
              simp at hnone
          rcases n' with _ | n''
          · simp at hs
          by_cases hd : d = '"'
          · subst hd
            rw [eccFuel_quote_none n'' rest3 h3]
            have := ihn n'' (by omega) rest3 (by simp at hs; omega) h3
            rw [this]
          · rw [eccFuel_cons, if_neg hd]
            have := ihn n'' (by omega) rest3 (by simp at hs; omega) h3
            rw [this]
      · have h2 : scanStr rest = none := by
          rw [scanStr_other c rest hq hb] at hnone
          rcases hsc : scanStr rest with _ | p
          · rfl
          · rw [hsc] at hnone
            simp at hnone
        have := ihn n' (by omega) rest (by simp at hs; omega) h2
        rw [this]

/-- C6: the Control-Character Escaper replaces literal newline, carriage
return and tab only within maximal quoted-string spans (an escaped quote does
not terminate a span), and every character outside such spans — including any
literal control character outside any quoted span, and the whole remainder
after an opening quote that never closes — is left byte-identical: the
embedded `escape_control_chars_in_strings` agrees with the spec-side escaper
built from the unescaped-closing-quote span scan. -/
theorem control_escaper_matches_spec :
    ∀ s : List Char, escape_control_chars_in_strings s = spec_control_escaper s := by
  have main : ∀ (n : Nat) (s : List Char), s.length ≤ n →
      eccFuel n s = spec_control_escaper s := by
    intro n
    induction n using Nat.strong_induction_on with
    | _ n ihn =>
      intro s hs
      cases s with
      | nil => rw [eccFuel_nil, spec_escaper_nil]
      | cons c rest =>
        rcases n with _ | n'
        · simp at hs
        by_cases hq : c = '"'
        · subst hq
          rcases hsc : scanStr rest with _ | ⟨content, r⟩
          · rw [eccFuel_quote_none n' rest hsc,
              spec_escaper_quote_none rest (by rw [spec_find_close_eq]; exact hsc),
              eccFuel_of_no_close n' rest (by simp at hs; omega) hsc]
          · have hr : r.length < rest.length := scanStr_length rest content r hsc
            rw [eccFuel_quote_some n' rest content r hsc,
              spec_escaper_quote_some rest content r
                (by rw [spec_find_close_eq]; exact hsc),
              replace_control_eq,
              ihn n' (by omega) r (by simp at hs; omega)]
        · rw [eccFuel_cons, if_neg hq, spec_escaper_other c rest hq,
            ihn n' (by omega) rest (by simp at hs; omega)]
  intro s
  exact main s.length s (Nat.le_refl _)

/-! ## Multiline-String Joiner: `fix_multiline_strings` (source lines 38-71)

The joiner searches each line for `("run":\s*")([^"]*)$`, accumulates lines
until one contains a quote, and back-patches the saved prefix with
`re.sub(r'("run":\s*")[^"]*$', r'\1' + fixed_string, prefix)`.  Passing
`fixed_string` as part of the replacement template means CPython's template
processing applies to it: `\n` sequences become literal newlines, unknown
ASCII-letter escapes such as `\q` raise `re.error`, and digit sequences after
the leading `\1` are read as group references or octal escapes.  `Option`
models the raised `re.error` (`none`). -/

/-- Attempt to match `("run":\s*")` at the head of a suffix; on success return
the text of group 1 and the remainder after its closing quote.  Greedy `\s*`
followed by a mandatory quote is deterministic: the quote is not whitespace,
so only the maximal whitespace run can precede it. -/
def matchRunOpenHere : List Char → Option (List Char × List Char)
  | '"' :: 'r' :: 'u' :: 'n' :: '"' :: ':' :: rest =>
    match rest.dropWhile pyIsSpace with
    | '"' :: after =>
      some ('"' :: 'r' :: 'u' :: 'n' :: '"' :: ':' ::
        (rest.takeWhile pyIsSpace ++ ['"']), after)
    | _ => none
  | _ => none

/-- Leftmost search of `("run":\s*")([^"]*)$` over a line: try each start
position; the full pattern also requires the remainder after the quote to
contain no quote (`[^"]*$`).  Returns `line[:m.start 2]` and group 2. -/
def findRunOpenGo : List Char → List Char → Option (List Char × List Char)
  | _, [] => none
  | walked, c :: rest =>
    match matchRunOpenHere (c :: rest) with
    | some (g1, after) =>
      if after.contains '"' then findRunOpenGo (c :: walked) rest
      else some (walked.reverse ++ g1, after)
    | none => findRunOpenGo (c :: walked) rest

/-- Search of `("run":\s*")([^"]*)$` in a line, as in the joiner's scan
state. -/
def findRunOpen (line : List Char) : Option (List Char × List Char) :=
  findRunOpenGo [] line

/-- Split a template suffix at the first `>` (used for `\g<name>` group
references in replacement templates). -/
def splitAtGt : List Char → Option (List Char × List Char)
  | [] => none
  | '>' :: r => some ([], r)
  | c :: r => (splitAtGt r).map (fun p => (c :: p.1, p.2))

/-- Character escapes recognized inside a replacement template (CPython's
`ESCAPES` table). -/
def templEscape (c : Char) : Option Char :=
  if c = 'a' then some '\x07'
  else if c = 'b' then some '\x08'
  else if c = 'f' then some '\x0c'
  else if c = 'n' then some '\n'
  else if c = 'r' then some '\r'
  else if c = 't' then some '\t'
  else if c = 'v' then some '\x0b'
  else if c = '\\' then some '\\'
  else none

def isOctDigit (c : Char) : Bool := '0' ≤ c && c ≤ '7'

def octVal (c : Char) : Nat := c.toNat - '0'.toNat

def digitsToNat (l : List Char) : Nat :=
  l.foldl (fun a c => a * 10 + (c.toNat - 48)) 0

/-- Fueled processing of a `re.sub` replacement template against a match with
one capture group (CPython `parse_template` for the pattern
`("run":\s*")[^"]*$`): `g0` is the whole match, `g1` is group 1.  `none`
models a raised `re.error` (bad escape, unknown or invalid group reference).
Every step consumes at least one template character, so fuel equal to the
template length (supplied by the wrapper) is never exhausted. -/
def applyTemplateFuel (g0 g1 : List Char) : Nat → List Char → Option (List Char)
  | _, [] => some []
  | 0, _ :: _ => none
  | n + 1, c :: rest =>
    if c = '\\' then
      match rest with
      | [] => none
      | e :: r =>
        if e = 'g' then
          match r with
          | '<' :: r2 =>
            match splitAtGt r2 with
            | some (name, r3) =>
              if name.isEmpty then none
              else if name.all Char.isDigit then
                match digitsToNat name with
                | 0 => (applyTemplateFuel g0 g1 n r3).map (fun t => g0 ++ t)
                | 1 => (applyTemplateFuel g0 g1 n r3).map (fun t => g1 ++ t)
                | _ => none
              else none
            | none => none
          | _ => none
        else if e = '0' then
          match r with
          | d1 :: r1 =>
            if isOctDigit d1 then
              match r1 with
              | d2 :: r2 =>
                if isOctDigit d2 then
                  (applyTemplateFuel g0 g1 n r2).map
                    (fun t => Char.ofNat (octVal d1 * 8 + octVal d2) :: t)
                else
                  (applyTemplateFuel g0 g1 n r1).map
                    (fun t => Char.ofNat (octVal d1) :: t)
              | [] => some [Char.ofNat (octVal d1)]
            else (applyTemplateFuel g0 g1 n r).map (fun t => '\x00' :: t)
          | [] => some ['\x00']
        else if e.isDigit then
          match r with
          | d2 :: r2 =>
            if d2.isDigit then
              if isOctDigit e && isOctDigit d2 then
                match r2 with
                | d3 :: r3 =>
                  if isOctDigit d3 then
                    if octVal e * 64 + octVal d2 * 8 + octVal d3 > 255 then none
                    else
                      (applyTemplateFuel g0 g1 n r3).map
                        (fun t =>
                          Char.ofNat (octVal e * 64 + octVal d2 * 8 + octVal d3) :: t)
                  else none
                | [] => none
              else none
            else if e = '1' then
              (applyTemplateFuel g0 g1 n r).map (fun t => g1 ++ t)
            else none
          | [] => if e = '1' then some g1 else none
        else
          match templEscape e with
          | some ch => (applyTemplateFuel g0 g1 n r).map (fun t => ch :: t)
          | none =>
            if e.isAlpha then none
            else (applyTemplateFuel g0 g1 n r).map (fun t => '\\' :: e :: t)
    else (applyTemplateFuel g0 g1 n rest).map (fun t => c :: t)

/-- Apply a replacement template (see `applyTemplateFuel`). -/
def applyTemplate (g0 g1 tmpl : List Char) : Option (List Char) :=
  applyTemplateFuel g0 g1 tmpl.length tmpl

/-- Embedding of
`re.sub(r'("run":\s*")[^"]*$', r'\1' + fixed_string, target)`: the single
possible match extends to the end of the line, so the result is the text
before the match followed by the processed template.  With no match the
target is returned unchanged; a template error propagates as `none`. -/
def backPatchGo (fixedString : List Char) : List Char → List Char → Option (List Char)
  | walked, [] => some walked.reverse
  | walked, c :: rest =>
    match matchRunOpenHere (c :: rest) with
    | some (g1, after) =>
      if after.contains '"' then backPatchGo fixedString (c :: walked) rest
      else
        (applyTemplate (g1 ++ after) g1 ('\\' :: '1' :: fixedString)).map
          (fun rep => walked.reverse ++ rep)
    | none => backPatchGo fixedString (c :: walked) rest

def backPatch (fixedString target : List Char) : Option (List Char) :=
  backPatchGo fixedString [] target

/-- Python's `line.rstrip().endswith('"')`. -/
def endsWithQuoteStripped (line : List Char) : Bool :=
  (pyRstrip line).getLast? == some '"'

/-- The joiner's line loop (source lines 44-70).  State: remaining lines,
already-emitted lines in reverse, the `in_multiline` flag and the
accumulator.  On a line containing a quote while accumulating, the previously
emitted prefix is back-patched with the accumulated string (whose line breaks
were first replaced by backslash-`n`), and the line's remainder from its
first quote is emitted as a new line.  `none` models a raised `re.error`
escaping the loop. -/
def fmlGo : List (List Char) → List (List Char) → Bool → List Char →
    Option (List (List Char))
  | [], fixed, _, _ => some fixed.reverse
  | line :: rest, fixed, false, _ =>
    match findRunOpen line with
    | some (pfx, content) =>
      if endsWithQuoteStripped line then fmlGo rest (line :: fixed) false []
      else fmlGo rest (pfx :: fixed) true content
    | none => fmlGo rest (line :: fixed) false []
  | line :: rest, fixed, true, accum =>
    if line.contains '"' then
      match fixed with
      | prev :: fixedRest =>
        match backPatch
            (replaceAll (accum ++ '\n' :: line.takeWhile (· ≠ '"')) '\n'
              ['\\', 'n']) prev with
        | some newPrev =>
          fmlGo rest ((line.dropWhile (· ≠ '"')) :: newPrev :: fixedRest) false []
        | none => none
      | [] => none
    else fmlGo rest fixed true (accum ++ '\n' :: line)

/-- Embedding of `fix_multiline_strings`: split into lines, run the joiner
loop, join with newlines.  `none` models a raised `re.error` (the replacement
template of the back-patching `re.sub` is built from uncontrolled text). -/
def fix_multiline_strings (s : List Char) : Option (List Char) :=
  (fmlGo (pySplitlines s) [] false []).map (List.intercalate ['\n'])

/-- Embedding of `clean_json_text` (source lines 73-80): the three repair
stages in the source's order — Multiline-String Joiner, then Escape
Normalizer, then Control-Character Escaper.  `none` models an exception
raised by the joiner. -/
def clean_json_text (s : List Char) : Option (List Char) :=
  match fix_multiline_strings s with
  | none => none
  | some t => some (escape_control_chars_in_strings (fix_invalid_escapes t))

/-! ## Tolerant Parser: `robust_json_loads` (source lines 12-17 and 82-95)

`json.loads` is a standard-library collaborator, so the strict parser is a
function parameter `parse` of the embedding (the document type `D` and the
error-detail type `E` are likewise parameters).  The `JSONParseError` record
carries exactly the source's fields. -/

/-- The source's `JSONParseError` exception payload (source lines 12-17). -/
structure JSONParseError (E : Type) where
  original_error : E
  cleaned_error : E
  text : List Char

/-- Outcome of a call to `robust_json_loads` that does not return a document:
either the source's `JSONParseError`, or an exception escaping
`clean_json_text` (the joiner's `re.error`). -/
inductive PyError (E : Type) where
  | jsonParse (err : JSONParseError E)
  | reError

/-- `robust_json_loads` with the repair composition as an explicit parameter
(used to state that a strict-parse success never invokes any repair). -/
def robust_json_loads_with {E D : Type} (cleaner : List Char → Option (List Char))
    (parse : List Char → Except E D) (text : List Char) :
    Except (PyError E) D :=
  match parse text with
  | .ok doc => .ok doc
  | .error e1 =>
    match cleaner text with
    | none => .error .reError
    | some cleaned =>
      match parse cleaned with
      | .ok doc => .ok doc
      | .error e2 => .error (.jsonParse ⟨e1, e2, text⟩)

/-- Embedding of `robust_json_loads`: strict parse; on failure clean with
`clean_json_text` and parse again; on a second failure raise `JSONParseError`
carrying both errors and the original text. -/
def robust_json_loads {E D : Type} (parse : List Char → Except E D)
    (text : List Char) : Except (PyError E) D :=
  robust_json_loads_with clean_json_text parse text

/-! Claim theorems for the repair stages and the Tolerant Parser. -/

/-- C1 (code bug): on a document whose `run` value spans 3 lines without a
closing quote on the opening line, the joiner's output does not contain the
three lines joined by backslash-`n` escapes: the accumulated string is passed
to `re.sub` as a replacement template, whose processing turns the inserted
backslash-`n` sequences back into literal newlines, and the remainder of the
closing line is emitted as a separate line, so the joiner output still has
literal newlines inside the string (hence cannot strict-parse), and even the
full `clean_json_text` pipeline yields the three lines joined by
backslash-`n` plus a trailing backslash-`n` that is not part of the original
value.  The first conjunct evaluates the joiner at the failing input, the
second evaluates the full pipeline, and the third records that the joiner
output differs from the claim's expected joined form. -/
theorem multiline_joiner_template_bug :
    fix_multiline_strings ("\x7b\"run\": \"line1\nline2\nline3\"\x7d".toList) =
      some ("\x7b\"run\": \"line1\nline2\nline3\n\"\x7d".toList) ∧
    clean_json_text ("\x7b\"run\": \"line1\nline2\nline3\"\x7d".toList) =
      some ("\x7b\"run\": \"line1\\nline2\\nline3\\n\"\x7d".toList) ∧
    ("\x7b\"run\": \"line1\nline2\nline3\n\"\x7d".toList) ≠
      ("\x7b\"run\": \"line1\\nline2\\nline3\"\x7d".toList) := by
  exact ⟨rfl, rfl, by decide⟩

/-- C7 (code bug): `fix_multiline_strings` is not total — on a document whose
accumulated multiline content contains a backslash before an ASCII letter
that is not a recognized template escape (here backslash-`q`), the
back-patching `re.sub` raises `re.error: bad escape`, because the
accumulated string is used as a replacement template; the exception
propagates out of `clean_json_text` as well.  The other two repair stages
are total Lean functions, so the source's claim fails exactly at the
joiner. -/
theorem repair_stage_raises_on_bad_template_escape :
    fix_multiline_strings ("\"run\": \"a\\q\nb\"".toList) = none ∧
    clean_json_text ("\"run\": \"a\\q\nb\"".toList) = none := by
  exact ⟨rfl, rfl⟩

/-- C2: for any text that already strict-parses successfully, the Tolerant
Parser returns exactly the document produced by the strict parse, and no
repair stage is invoked: the result is the same under every repair
composition whatsoever, in particular the repair is never consulted. -/
theorem tolerant_parser_preserves_wellformed {E D : Type}
    (parse : List Char → Except E D) (text : List Char) (d : D)
    (h : parse text = .ok d) :
    robust_json_loads parse text = .ok d ∧
      ∀ cleaner : List Char → Option (List Char),
        robust_json_loads_with cleaner parse text = .ok d := by
  constructor
  · unfold robust_json_loads robust_json_loads_with
    rw [h]
  · intro cleaner
    unfold robust_json_loads_with
    rw [h]

/-- A concrete strict parser used to witness the Tolerant Parser theorems. -/
def exParse : List Char → Except Unit Nat :=
  fun t => if t = ['a'] then .ok 3 else .error ()

/-- Witness for C2 at a concrete parser and text. -/
theorem tolerant_parser_preserves_wellformed_witness :
    robust_json_loads exParse ['a'] = .ok 3 ∧
      ∀ cleaner : List Char → Option (List Char),
        robust_json_loads_with cleaner exParse ['a'] = .ok 3 :=
  tolerant_parser_preserves_wellformed exParse ['a'] 3 rfl

/-- C3: `robust_json_loads` raises a `JSONParseError` carrying errors `e1`,
`e2` and text `t` exactly when the strict parse fails with `e1`, the repair
completes producing some cleaned text, and the post-repair strict parse fails
with `e2` — and then `t` is the originally-read text, not the repaired text.
The error value consists of the two error details and the text only: by
construction it never holds a (partial) document. -/
theorem parse_failure_iff_both_parses_fail {E D : Type}
    (parse : List Char → Except E D) (text t : List Char) (e1 e2 : E) :
    robust_json_loads parse text = .error (.jsonParse ⟨e1, e2, t⟩) ↔
      (t = text ∧ parse text = .error e1 ∧
        ∃ cleaned, clean_json_text text = some cleaned ∧
          parse cleaned = .error e2) := by
  constructor
  · intro h
    unfold robust_json_loads robust_json_loads_with at h
    split at h
    · cases h
    · rename_i e1' hp
      split at h
      · rename_i hc
        injection h with h2
        cases h2
      · rename_i cleaned hc
        split at h
        · cases h
        · rename_i e2' hp2
          injection h with h2
          injection h2 with h3
          injection h3 with ha hb hcc
          subst ha
          subst hb
          subst hcc
          exact ⟨rfl, hp, cleaned, hc, hp2⟩
  · rintro ⟨ht, hp, cleaned, hc, hp2⟩
    subst ht
    unfold robust_json_loads robust_json_loads_with
    simp [hp, hc, hp2]

/-! ## Flattening Pipeline (source lines 108-185)

Parsed documents follow the JSON data model.  Numeric literals carry their
Python `str()` rendering as an abstract string, since the claims under
verification do not depend on number formatting. -/

inductive JValue where
  | null
  | bool (b : Bool)
  | num (lit : List Char)
  | str (s : List Char)
  | arr (items : List JValue)
  | obj (fields : List (List Char × JValue))

/-- Lowercase hexadecimal digit. -/
def hexDigit (n : Nat) : Char :=
  if n < 10 then Char.ofNat (48 + n) else Char.ofNat (87 + n)

/-- A `\uXXXX` escape for a code unit. -/
def uEscape (n : Nat) : List Char :=
  ['\\', 'u', hexDigit (n / 4096 % 16), hexDigit (n / 256 % 16),
   hexDigit (n / 16 % 16), hexDigit (n % 16)]

/-- String-character rendering of `json.dumps` with its default
`ensure_ascii=True`: quote and backslash escaped, short escapes for the
common control characters, `\uXXXX` for other control and all non-ASCII
characters (surrogate pairs beyond the basic plane). -/
def dump_string_char (c : Char) : List Char :=
  if c = '"' then ['\\', '"']
  else if c = '\\' then ['\\', '\\']
  else if c = '\n' then ['\\', 'n']
  else if c = '\r' then ['\\', 'r']
  else if c = '\t' then ['\\', 't']
  else if c = '\x08' then ['\\', 'b']
  else if c = '\x0c' then ['\\', 'f']
  else if c.toNat < 0x20 then uEscape c.toNat
  else if c.toNat < 0x7f then [c]
  else if c.toNat < 0x10000 then uEscape c.toNat
  else
    uEscape (0xd800 + (c.toNat - 0x10000) / 1024) ++
      uEscape (0xdc00 + (c.toNat - 0x10000) % 1024)

mutual
/-- Model of the standard-library `json.dumps` with its default separators
`', '` and `': '`, used by `serialize_field` for nested mappings and
sequences. -/
def json_dumps : JValue → List Char
  | .null => "null".toList
  | .bool true => "true".toList
  | .bool false => "false".toList
  | .num l => l
  | .str s => '"' :: (concatMap dump_string_char s ++ ['"'])
  | .arr [] => "[]".toList
  | .arr (x :: xs) => '[' :: (json_dumps x ++ dumps_items xs ++ [']'])
  | .obj [] => "\x7b\x7d".toList
  | .obj (f :: fs) => '\x7b' :: (dump_field f ++ dumps_fields fs ++ ['\x7d'])

def dump_field : (List Char × JValue) → List Char
  | (k, v) =>
    '"' :: (concatMap dump_string_char k ++ '"' :: ':' :: ' ' :: json_dumps v)

def dumps_items : List JValue → List Char
  | [] => []
  | x :: xs => ',' :: ' ' :: (json_dumps x ++ dumps_items xs)

def dumps_fields : List (List Char × JValue) → List Char
  | [] => []
  | f :: fs => ',' :: ' ' :: (dump_field f ++ dumps_fields fs)
end

/-- A Python value as it reaches a CSV cell. -/
inductive PyVal where
  | pstr (s : List Char)
  | pbool (b : Bool)
  | pnum (lit : List Char)

/-- Embedding of `serialize_field` (source lines 108-121): `None` becomes the
empty string, mappings and sequences are rendered by `json.dumps`, all other
values are returned as-is.  The model's `json_dumps` is total on the JSON
data model, so the source's logged fallback for non-serializable values is
unreachable here. -/
def serialize_field : JValue → PyVal
  | .null => .pstr []
  | .obj fs => .pstr (json_dumps (.obj fs))
  | .arr xs => .pstr (json_dumps (.arr xs))
  | .str s => .pstr s
  | .bool b => .pbool b
  | .num l => .pnum l

/-- The `str()` rendering applied by the csv writer to non-string values. -/
def pyStr : PyVal → List Char
  | .pstr s => s
  | .pbool true => "True".toList
  | .pbool false => "False".toList
  | .pnum l => l

/-- The declared CSV schema (source lines 132-139), in order. -/
def fieldnames : List (List Char) :=
  ["_created".toList, "_deleted".toList, "_etag".toList, "_id".toList,
   "_links".toList, "_updated".toList, "added_version".toList,
   "base_branch".toList, "branch".toList, "build_system".toList,
   "cached".toList, "ci_service".toList, "current_image_tag".toList,
   "deprecated_version".toList, "failed_job".toList, "filtered_reason".toList,
   "image_tag".toList, "is_error_pass".toList, "lang".toList, "match".toList,
   "merged_at".toList, "metrics".toList, "passed_job".toList, "pr_num".toList,
   "repo".toList, "repo_mined_version".toList, "reproduce_attempts".toList,
   "reproduce_successes".toList, "reproduced".toList,
   "reproducibility_status".toList, "stability".toList, "status".toList,
   "test_framework".toList]

/-- Lookup in a Python dict built by `json.loads` from key/value pairs:
duplicate keys keep the last occurrence. -/
def lookupLast (fields : List (List Char × JValue)) (k : List Char) :
    Option JValue :=
  fields.foldl (fun acc p => if p.1 = k then some p.2 else acc) none

/-- One CSV cell (source lines 169-175): for `current_image_tag` the value is
taken from `image_tag`; a missing key defaults to the empty string
(`artifact.get(field, '')`); the value then passes through `serialize_field`
and the csv writer's `str()`. -/
def cellFor (artifact : List (List Char × JValue)) (field : List Char) :
    List Char :=
  let key := if field = "current_image_tag".toList
             then "image_tag".toList else field
  pyStr (serialize_field ((lookupLast artifact key).getD (.str [])))

/-- The flattened row of a document: one cell per declared field, in the
declared order (`csv.DictWriter` writes cells in `fieldnames` order). -/
def buildRow (artifact : List (List Char × JValue)) : List (List Char) :=
  fieldnames.map (cellFor artifact)

/-- Run counters and accumulated rows of the main loop. -/
structure RunStats where
  data_rows : List (List (List Char))
  processed : Nat
  skipped : Nat
  invalid : Nat

/-- One iteration of the main loop (source lines 147-178) on a file's text:
an empty file is skipped before any parsing; a `JSONParseError` — or any
other exception from reading and parsing, such as the joiner's `re.error` —
is caught and counted as invalid; a successfully parsed document is
flattened and appended.  The row-building code sits outside the `try` block
and calls `artifact.get`, so a successful parse of a non-dict document
raises an uncaught `AttributeError` that aborts the whole run (`none`). -/
def processFile {E : Type} (parse : List Char → Except E JValue)
    (st : RunStats) (text : List Char) : Option RunStats :=
  if text.isEmpty then some { st with skipped := st.skipped + 1 }
  else
    match robust_json_loads parse text with
    | .error _ => some { st with invalid := st.invalid + 1 }
    | .ok (.obj fields) =>
      some { st with data_rows := st.data_rows ++ [buildRow fields],
                     processed := st.processed + 1 }
    | .ok _ => none

/-- The main loop over the input files (their text contents, in glob
order). -/
def processFiles {E : Type} (parse : List Char → Except E JValue)
    (files : List (List Char)) : Option RunStats :=
  files.foldlM (processFile parse) ⟨[], 0, 0, 0⟩

def exceptOk {A B : Type} : Except A B → Bool
  | .ok _ => true
  | .error _ => false

/-- The robust parse of a file either fails or yields a JSON object — the
crash-freedom condition of the amended schema-stability claim. -/
def okIsObj {E : Type} : Except (PyError E) JValue → Bool
  | .ok (.obj _) => true
  | .ok _ => false
  | .error _ => true

def fileOk {E : Type} (parse : List Char → Except E JValue)
    (t : List Char) : Bool :=
  t.isEmpty || okIsObj (robust_json_loads parse t)

/-- A file that reaches the parser and parses successfully. -/
def parsesOk {E : Type} (parse : List Char → Except E JValue)
    (t : List Char) : Bool :=
  !t.isEmpty && exceptOk (robust_json_loads parse t)

/-- C8: a zero-byte input file never reaches the parser — the step result is
identical for every parser, over arbitrary error types — and is counted under
the skipped counter: the rows, processed and invalid counters are untouched
and skipped increments by one. -/
theorem empty_file_short_circuit {E F : Type}
    (parse : List Char → Except E JValue) (parse2 : List Char → Except F JValue)
    (st : RunStats) :
    processFile parse st [] = some { st with skipped := st.skipped + 1 } ∧
      processFile parse2 st [] = some { st with skipped := st.skipped + 1 } := by
  constructor <;> rfl

/-- Invariant of the main loop's fold: when every file's robust parse either
fails or yields an object, the loop completes, the number of accumulated rows
grows by exactly the number of successfully parsed files, and every new row
is the flattening of some document. -/
theorem processFiles_go {E : Type} (parse : List Char → Except E JValue) :
    ∀ (files : List (List Char)) (st0 : RunStats),
      files.all (fileOk parse) = true →
      ∃ st, List.foldlM (processFile parse) st0 files = some st ∧
        st.data_rows.length =
          st0.data_rows.length + files.countP (parsesOk parse) ∧
        ∀ row ∈ st.data_rows, row ∈ st0.data_rows ∨
          ∃ artifact, row = buildRow artifact := by
  intro files
  induction files with
  | nil =>
    intro st0 hall
    exact ⟨st0, rfl, by simp, fun row hr => Or.inl hr⟩
  | cons t files ih =>
    intro st0 hall
    rw [List.all_cons, Bool.and_eq_true] at hall
    obtain ⟨hok, hall2⟩ := hall
    rw [List.foldlM_cons]
    by_cases hemp : t.isEmpty
    · have hstep : processFile parse st0 t =
          some { st0 with skipped := st0.skipped + 1 } := by
        simp [processFile, hemp]
      rw [hstep]
      obtain ⟨st, hfold, hlen, hmem⟩ :=
        ih { st0 with skipped := st0.skipped + 1 } hall2
      refine ⟨st, hfold, ?_, ?_⟩
      · rw [hlen, List.countP_cons]
        simp [parsesOk, hemp]
      · intro row hr
        exact hmem row hr
    · rw [fileOk, Bool.or_eq_true] at hok
      rcases hok with hc | hobj
      · exact absurd hc (by simpa using hemp)
      rcases hr : robust_json_loads parse t with err | v
      · have hstep : processFile parse st0 t =
            some { st0 with invalid := st0.invalid + 1 } := by
          simp [processFile, hemp, hr]
        rw [hstep]
        obtain ⟨st, hfold, hlen, hmem⟩ :=
          ih { st0 with invalid := st0.invalid + 1 } hall2
        refine ⟨st, hfold, ?_, ?_⟩
        · rw [hlen, List.countP_cons]
          simp [parsesOk, hr, exceptOk]
        · intro row hrw
          exact hmem row hrw
      · rw [hr] at hobj
        cases v with
        | obj fields =>
          have hstep : processFile parse st0 t =
              some { st0 with
                data_rows := st0.data_rows ++ [buildRow fields],
                processed := st0.processed + 1 } := by
            simp [processFile, hemp, hr]
          rw [hstep]
          obtain ⟨st, hfold, hlen, hmem⟩ :=
            ih { st0 with
              data_rows := st0.data_rows ++ [buildRow fields],
              processed := st0.processed + 1 } hall2
          refine ⟨st, hfold, ?_, ?_⟩
          · have hp : parsesOk parse t = true := by
              simp [parsesOk, hemp, hr, exceptOk]
            rw [hlen, List.countP_cons, hp, if_pos rfl]
            show (st0.data_rows ++ [buildRow fields]).length + _ = _
            simp only [List.length_append, List.length_cons, List.length_nil]
            omega
          · intro row hrw
            rcases hmem row hrw with hin | hbuilt
            · rcases List.mem_append.mp hin with hin0 | hin1
              · exact Or.inl hin0
              · right
                refine ⟨fields, ?_⟩
                simpa using hin1
            · exact Or.inr hbuilt
        | null => simp [okIsObj] at hobj
        | bool b => simp [okIsObj] at hobj
        | num l => simp [okIsObj] at hobj
        | str s => simp [okIsObj] at hobj
        | arr xs => simp [okIsObj] at hobj

/-- C9 amended: for a batch of input files in which every successfully parsed
document is a JSON object, the run completes and the output rows are exactly
one per successfully parsed file, every row is the flattening of some
document with exactly the declared column count, the cell at each position
belongs to the declared field at that position, and a missing or null source
field renders as the empty string. -/
theorem schema_stability_for_object_documents {E : Type}
    (parse : List Char → Except E JValue) (files : List (List Char))
    (h : files.all (fileOk parse) = true) :
    ∃ st, processFiles parse files = some st ∧
      st.data_rows.length = files.countP (parsesOk parse) ∧
      (∀ row ∈ st.data_rows, ∃ artifact, row = buildRow artifact ∧
        row.length = fieldnames.length) ∧
      (∀ (artifact : List (List Char × JValue)) (i : Nat) (f : List Char),
        fieldnames[i]? = some f →
        (buildRow artifact)[i]? = some (cellFor artifact f)) ∧
      (∀ (artifact : List (List Char × JValue)) (f : List Char),
        (lookupLast artifact (if f = "current_image_tag".toList
            then "image_tag".toList else f) = none ∨
         lookupLast artifact (if f = "current_image_tag".toList
            then "image_tag".toList else f) = some .null) →
        cellFor artifact f = []) := by
  obtain ⟨st, hfold, hlen, hmem⟩ := processFiles_go parse files ⟨[], 0, 0, 0⟩ h
  refine ⟨st, hfold, by simpa using hlen, ?_, ?_, ?_⟩
  · intro row hr
    rcases hmem row hr with hin | ⟨artifact, hbuilt⟩
    · simp at hin
    · exact ⟨artifact, hbuilt, by rw [hbuilt]; simp [buildRow]⟩
  · intro artifact i f hf
    rw [buildRow, List.getElem?_map, hf]
    rfl
  · intro artifact f hnull
    have e : cellFor artifact f =
        pyStr (serialize_field ((lookupLast artifact
          (if f = "current_image_tag".toList then "image_tag".toList else f)).getD
          (.str []))) := rfl
    rw [e]
    rcases hnull with hn | hn <;> rw [hn] <;> rfl

/-- A concrete strict parser recognizing the empty-object document, used to
witness the amended schema-stability theorem. -/
def exParseObj : List Char → Except Unit JValue :=
  fun t => if t = "\x7b\x7d".toList then .ok (.obj []) else .error ()

/-- Witness for the amended C9 theorem on a concrete batch: one JSON-object
file, one empty file, one irrecoverably corrupt file. -/
theorem schema_stability_for_object_documents_witness :
    ∃ st, processFiles exParseObj ["\x7b\x7d".toList, [], "bad".toList] = some st ∧
      st.data_rows.length =
        (["\x7b\x7d".toList, [], "bad".toList].countP (parsesOk exParseObj)) ∧
      (∀ row ∈ st.data_rows, ∃ artifact, row = buildRow artifact ∧
        row.length = fieldnames.length) ∧
      (∀ (artifact : List (List Char × JValue)) (i : Nat) (f : List Char),
        fieldnames[i]? = some f →
        (buildRow artifact)[i]? = some (cellFor artifact f)) ∧
      (∀ (artifact : List (List Char × JValue)) (f : List Char),
        (lookupLast artifact (if f = "current_image_tag".toList
            then "image_tag".toList else f) = none ∨
         lookupLast artifact (if f = "current_image_tag".toList
            then "image_tag".toList else f) = some .null) →
        cellFor artifact f = []) :=
  schema_stability_for_object_documents exParseObj
    ["\x7b\x7d".toList, [], "bad".toList] (by rfl)

/-- A concrete strict parser recognizing the document `[1]`, a JSON array. -/
def arrParse : List Char → Except Unit JValue :=
  fun t => if t = "[1]".toList then .ok (.arr [.num ['1']]) else .error ()

/-- C9 counterexample: a file holding the document `[1]` parses successfully
(so the claim counts it in M), but the row-building code outside the `try`
block calls `artifact.get` on a list, raising an uncaught `AttributeError`
that aborts the run before any CSV is written — there are not "exactly M
data rows", there is no output at all. -/
theorem schema_stability_crash_on_nonobject :
    robust_json_loads arrParse ("[1]".toList) = .ok (.arr [.num ['1']]) ∧
      processFiles arrParse [("[1]".toList)] = none := by
  exact ⟨rfl, rfl⟩

/-- C10: the `current_image_tag` cell of every built row (position 12 of the
declared schema) is the serialization of the document's `image_tag` field,
the empty string when `image_tag` is absent; a `current_image_tag` field
present in the source document itself is ignored — inserting one anywhere in
the document leaves the cell unchanged. -/
theorem current_image_tag_taken_from_image_tag
    (artifact : List (List Char × JValue)) :
    fieldnames[12]? = some ("current_image_tag".toList) ∧
    (buildRow artifact)[12]? =
      some (cellFor artifact ("current_image_tag".toList)) ∧
    cellFor artifact ("current_image_tag".toList) =
      pyStr (serialize_field
        ((lookupLast artifact ("image_tag".toList)).getD (.str []))) ∧
    (lookupLast artifact ("image_tag".toList) = none →
      cellFor artifact ("current_image_tag".toList) = []) ∧
    ∀ (pre post : List (List Char × JValue)) (v : JValue),
      cellFor (pre ++ ("current_image_tag".toList, v) :: post)
          ("current_image_tag".toList) =
        cellFor (pre ++ post) ("current_image_tag".toList) := by
  refine ⟨rfl, ?_, ?_, ?_, ?_⟩
  · rw [buildRow, List.getElem?_map]
    rfl
  · rfl
  · intro hn
    have e : cellFor artifact ("current_image_tag".toList) =
        pyStr (serialize_field
          ((lookupLast artifact ("image_tag".toList)).getD (.str []))) := rfl
    rw [e, hn]
    rfl
  · intro pre post v
    have hkey : lookupLast (pre ++ ("current_image_tag".toList, v) :: post)
        ("image_tag".toList) = lookupLast (pre ++ post) ("image_tag".toList) := by
      unfold lookupLast
      rw [List.foldl_append, List.foldl_append, List.foldl_cons]
      congr 1
    have e1 : cellFor (pre ++ ("current_image_tag".toList, v) :: post)
        ("current_image_tag".toList) =
        pyStr (serialize_field
          ((lookupLast (pre ++ ("current_image_tag".toList, v) :: post)
            ("image_tag".toList)).getD (.str []))) := rfl
    have e2 : cellFor (pre ++ post) ("current_image_tag".toList) =
        pyStr (serialize_field
          ((lookupLast (pre ++ post) ("image_tag".toList)).getD (.str []))) := rfl
    rw [e1, e2, hkey]
